import Mathlib

/-!
Verification development for the WordCamp favorite-sessions extractor
(`wordcamp_favorites.py`).  The Python program is shallowly embedded:
Python values that flow through the pipeline (JSON-decoded API records,
dictionaries, strings, numbers, `None`) are modelled by the inductive
type `PyVal`; the program's functions become Lean functions of the same
names; network I/O in `fetch_session_data` is modelled by an explicit
oracle argument standing for `requests.get(...)`.

String-processing primitives used by the source (`str.split`,
`str.strip`, `str.rstrip`, `str.replace`, `','.join`,
`urllib.parse.urlparse`, `urllib.parse.parse_qs`) are embedded as
executable functions over `List Char`, so every theorem below can be
evaluated on concrete inputs by `decide` or `rfl`.
-/

namespace WCF

/-- Embedding of the Python/JSON values the program manipulates:
strings, integers, lists, string-keyed dicts (as ordered association
lists, preserving Python's insertion order), and `None`. -/
inductive PyVal where
  | str (s : String)
  | num (n : Int)
  | list (xs : List PyVal)
  | dict (kvs : List (String × PyVal))
  | none
deriving Repr, Inhabited

/-- Python truthiness (`bool(v)`) for the embedded values: empty
string, zero, empty list, empty dict and `None` are falsy. -/
def pyTruthy : PyVal → Bool
  | .str s => !s.isEmpty
  | .num n => n != 0
  | .list xs => !xs.isEmpty
  | .dict kvs => !kvs.isEmpty
  | .none => false

/-- Lookup in an embedded dict's association list (first binding wins,
as in a Python dict, whose keys are unique anyway). -/
def pyAssoc (kvs : List (String × PyVal)) (k : String) : Option PyVal :=
  (kvs.find? (fun p => p.1 == k)).map (fun p => p.2)

/-- Embedding of `d.get(k, default)`.  Python raises `AttributeError`
when `d` is not a dict; the embedding totalises that case to the
default value (no theorem below depends on that case). -/
def pyDictGet (v : PyVal) (k : String) (d : PyVal) : PyVal :=
  match v with
  | .dict kvs => (pyAssoc kvs k).getD d
  | _ => d

/-- Embedding of `d[k]` on the dicts built by this program.  A missing
key (Python `KeyError`) is totalised to `None`; every theorem below
applies this only to dicts that carry the key, so the collapsed error
path is never load-bearing. -/
def pyIndex (v : PyVal) (k : String) : PyVal :=
  pyDictGet v k PyVal.none

/-- Embedding of `k in d` for dicts (`False` on non-dicts). -/
def pyHasKey (v : PyVal) (k : String) : Bool :=
  match v with
  | .dict kvs => (pyAssoc kvs k).isSome
  | _ => false

/-! ### String primitives -/

/-- Characters Python's `str.strip()` / `\s` treat as whitespace (the
ASCII ones; the source data never carries other Unicode spaces). -/
def isPySpace (c : Char) : Bool :=
  c = ' ' || c = '\t' || c = '\n' || c = '\r' || c = '\x0b' || c = '\x0c'

/-- Split a character list at the first occurrence of `c`: returns the
part before it and, when `c` occurs, the part after it. -/
def breakOnChar (c : Char) : List Char → List Char × Option (List Char)
  | [] => ([], Option.none)
  | a :: as =>
    if a = c then ([], Option.some as)
    else
      let r := breakOnChar c as
      (a :: r.1, r.2)

/-- Embedding of Python `s.split(sep)` for a one-character separator:
`splitOnChar c "a,,b".data = ["a".data, [], "b".data]` and
`splitOnChar c [] = [[]]`, exactly as in Python. -/
def splitOnChar (c : Char) : List Char → List (List Char)
  | [] => [[]]
  | a :: as =>
    if a = c then [] :: splitOnChar c as
    else
      match splitOnChar c as with
      | [] => [[a]]
      | g :: gs => (a :: g) :: gs

/-- Embedding of Python `sep.join(parts)` at the character-list level. -/
def joinL (sep : List Char) : List (List Char) → List Char
  | [] => []
  | [t] => t
  | t :: ts => t ++ sep ++ joinL sep ts

/-- Embedding of `sep.join(xs)` on strings.  (Python's `join` raises on
non-`str` elements; callers below always pass strings.) -/
def pyJoin (sep : String) (xs : List String) : String :=
  ⟨joinL sep.data (xs.map String.data)⟩

/-- Strip leading and trailing whitespace: `str.strip()`. -/
def stripChars (l : List Char) : List Char :=
  ((l.dropWhile isPySpace).reverse.dropWhile isPySpace).reverse

/-- Embedding of Python `s.strip()`. -/
def pyStrip (s : String) : String :=
  ⟨stripChars s.data⟩

/-- Embedding of Python `s.rstrip(chars)`: removes every trailing
character that belongs to the character SET `chars` (this is the
character-set semantics of `str.rstrip`, not suffix removal). -/
def pyRstrip (s : String) (chars : String) : String :=
  ⟨(s.data.reverse.dropWhile (fun c => chars.data.contains c)).reverse⟩

/-- Replace every occurrence of the character `c` by the string `r`:
embedding of Python `s.replace(c, r)` for a one-character pattern. -/
def replaceCharWith (c : Char) (r : List Char) : List Char → List Char
  | [] => []
  | a :: as => (if a = c then r else [a]) ++ replaceCharWith c r as

/-- Embedding of `s.replace(pat, r)` for the one-character patterns the
source uses (`'-'`, `':'`, `'T'`). -/
def pyReplaceChar (s : String) (c : Char) (r : String) : String :=
  ⟨replaceCharWith c r.data s.data⟩

/-! ### `urllib.parse.urlparse` / `urllib.parse.parse_qs` -/

/-- The components of `urllib.parse.urlparse` that the program reads:
`scheme`, `netloc`, `path` and `query`. -/
structure UrlParts where
  scheme : String
  netloc : String
  path : String
  query : String
deriving Repr, DecidableEq

/-- Scheme/netloc/path split of the part of the URL before `?`/`#`,
modelling `urlparse` for the absolute `scheme://netloc/path` URLs this
tool receives (relative references are parsed crudely; the program is
only ever invoked on absolute schedule URLs). -/
def urlSchemeNetlocPath (beforeQuery : List Char) : String × String × String :=
  let p := breakOnChar ':' beforeQuery
  match p.2 with
  | Option.some rest =>
    if rest.take 2 = ['/', '/'] then
      let afterSlashes := rest.drop 2
      let q := breakOnChar '/' afterSlashes
      match q.2 with
      | Option.some pathRest => (⟨p.1⟩, ⟨q.1⟩, ⟨'/' :: pathRest⟩)
      | Option.none => (⟨p.1⟩, ⟨q.1⟩, "")
    else (⟨p.1⟩, "", ⟨rest⟩)
  | Option.none => ("", "", ⟨beforeQuery⟩)

/-- Embedding of `urllib.parse.urlparse`: the fragment is everything
after the first `#`, the query everything after the first `?` before
the fragment, and the remainder splits into scheme, netloc and path. -/
def urlparse (url : String) : UrlParts :=
  let p1 := breakOnChar '#' url.data
  let p2 := breakOnChar '?' p1.1
  let snp := urlSchemeNetlocPath p2.1
  ⟨snp.1, snp.2.1, snp.2.2, ⟨(p2.2).getD []⟩⟩

/-- Append a `name=value` binding to the multi-dict accumulated by
`parse_qs`, preserving first-appearance key order as a Python dict
does. -/
def addParam (acc : List (String × List String)) (k : String) (v : String) :
    List (String × List String) :=
  match acc with
  | [] => [(k, [v])]
  | (k0, vs) :: rest =>
    if k0 = k then (k0, vs ++ [v]) :: rest else (k0, vs) :: addParam rest k v

/-- Embedding of `urllib.parse.parse_qs` with its default settings:
fields are split on `&`, each field on its first `=`; empty fields,
fields without `=` and fields with an empty value are dropped
(`keep_blank_values=False`).  Percent/plus decoding is not modelled:
the theorems below only quantify over inputs without `%` and `+`. -/
def parse_qs (query : String) : List (String × List String) :=
  (splitOnChar '&' query.data).foldl
    (fun acc field =>
      if field.isEmpty then acc
      else
        let nv := breakOnChar '=' field
        match nv.2 with
        | Option.none => acc
        | Option.some value =>
          if value.isEmpty then acc else addParam acc ⟨nv.1⟩ ⟨value⟩)
    []

/-- Embedding of `query_params.get(k, [])` on the `parse_qs` result. -/
def qsGet (params : List (String × List String)) (k : String) : List String :=
  ((params.find? (fun p => p.1 == k)).map (fun p => p.2)).getD []

/-! ### URL Interpreter (`extract_favorite_ids`, `get_wordcamp_base_url`) -/

/-- Embedding of `extract_favorite_ids`: read the `fav-sessions` query
parameter, split its first value on commas and strip whitespace around
each token (the "no favorites" branch prints a message and returns the
empty list). -/
def extract_favorite_ids (schedule_url : String) : List String :=
  let parsed_url := urlparse schedule_url
  let query_params := parse_qs parsed_url.query
  let fav_sessions := qsGet query_params "fav-sessions"
  if fav_sessions.isEmpty then []
  else
    let session_ids := splitOnChar ',' (fav_sessions.headD "").data
    session_ids.map (fun id => pyStrip ⟨id⟩)

/-- Embedding of `get_wordcamp_base_url`: rebuild
`f"{scheme}://{netloc}{path.rstrip('/schedule/')}"`.  Note that the
source calls `str.rstrip` with the character set `/schedule/`. -/
def get_wordcamp_base_url (schedule_url : String) : String :=
  let parsed_url := urlparse schedule_url
  parsed_url.scheme ++ "://" ++ parsed_url.netloc ++
    pyRstrip parsed_url.path "/schedule/"

/-! ### Session Fetcher (`fetch_session_data`) -/

/-- Slicing loop, structurally recursive on a fuel argument so that it
evaluates in the kernel; `chunkList` instantiates the fuel with the
input length, which suffices because each step with `n ≠ 0` drops at
least one element. -/
def chunkAux (n : Nat) : Nat → List α → List (List α)
  | _, [] => []
  | 0, _ :: _ => []
  | fuel + 1, a :: as => (a :: as).take n :: chunkAux n fuel ((a :: as).drop n)

/-- The consecutive slices `l[0:n], l[n:2n], ...` produced by the
source's loop `for i in range(0, len(session_ids), chunk_size)` with
`chunk = session_ids[i:i + chunk_size]` (empty for `n = 0`, a case the
source never exercises since `chunk_size = 10`). -/
def chunkList (n : Nat) (l : List α) : List (List α) :=
  if n = 0 then [] else chunkAux n l.length l

/-- Embedding of `fetch_session_data`.  The HTTP transport
(`requests.get(api_url, params={'include': ','.join(chunk)})` plus
`raise_for_status` and `.json()`) is modelled by the oracle `http`,
which receives the request URL and the `include` parameter value and
either returns the decoded record list or fails (`Option.none` stands
for a raised `RequestException`).  A failed batch is skipped
(`continue`); successful batches are accumulated in order with
`all_sessions.extend(sessions)`. -/
def fetch_session_data (http : String → String → Option (List PyVal))
    (base_url : String) (session_ids : List String) : List PyVal :=
  let api_url := base_url ++ "/wp-json/wp/v2/sessions"
  (chunkList 10 session_ids).foldl
    (fun all_sessions chunk =>
      match http api_url (pyJoin "," chunk) with
      | Option.some sessions => all_sessions ++ sessions
      | Option.none => all_sessions)
    []

/-! ### Session Normalizer (`extract_session_info`) -/

/-- The ordered speaker metadata field names probed by the source. -/
def speaker_fields : List String :=
  ["_wcpt_speaker_id", "speakers", "_wcb_session_speakers"]

/-- The ordered location metadata field names probed by the source. -/
def location_fields : List String :=
  ["_wcpt_track_id", "track", "location", "_wcb_session_track"]

/-- Embedding of `x if isinstance(x, list) else [x]`. -/
def listify (v : PyVal) : List PyVal :=
  match v with
  | .list xs => xs
  | _ => [v]

/-- The speaker-probing loop of `extract_session_info`: for each field
name in order, if the field is present in the meta dict with a truthy
value, EXTEND the accumulated speaker list with it (the source has no
`break` here, so every matching field contributes). -/
def collectSpeakers (fields : List String) (meta : List (String × PyVal)) :
    List PyVal :=
  fields.foldl
    (fun speakers field =>
      match pyAssoc meta field with
      | Option.some v => if pyTruthy v then speakers ++ listify v else speakers
      | Option.none => speakers)
    []

/-- The location-probing loop of `extract_session_info`: first field
present with a truthy value wins (this loop DOES `break`), otherwise
the placeholder is kept. -/
def pickLocation : List String → List (String × PyVal) → PyVal
  | [], _ => .str "Unknown Location"
  | f :: fs, meta =>
    match pyAssoc meta f with
    | Option.some v => if pyTruthy v then v else pickLocation fs meta
    | Option.none => pickLocation fs meta

/-- Case-insensitive literal match: returns the rest of the input when
the (lowercase) pattern matches a prefix of it, comparing lowered
characters (`re.IGNORECASE`). -/
def matchCI : List Char → List Char → Option (List Char)
  | [], s => Option.some s
  | _ :: _, [] => Option.none
  | p :: ps, c :: cs => if c.toLower = p then matchCI ps cs else Option.none

/-- After `Speaker[s]?` has matched: require `:`, skip `\s*`, then
capture the maximal nonempty run of characters in `[^<\n]`.  Returns
the capture and the rest of the input after it. -/
def afterColonCapture (rest : List Char) : Option (List Char × List Char) :=
  match rest with
  | ':' :: rest2 =>
    let rest3 := rest2.dropWhile isPySpace
    let cap := rest3.takeWhile (fun c => c != '<' && c != '\n')
    if cap.isEmpty then Option.none else Option.some (cap, rest3.drop cap.length)
  | _ => Option.none

/-- One attempted match of the source's fallback pattern
`Speaker[s]?:\s*([^<\n]+)` (case-insensitive) at the head of the
input.  The optional `s` backtracks as in the regex; backtracking of
`\s*` into the capture group (only reachable when the capture would
otherwise be empty, e.g. `"Speaker: <"`) is not modelled — no theorem
below depends on the fallback matcher's output. -/
def speakerMatchAt (s : List Char) : Option (List Char × List Char) :=
  (matchCI "speaker".data s).bind
    (fun rest =>
      match rest with
      | c :: cs =>
        if c.toLower = 's' then
          (afterColonCapture cs).orElse (fun _ => afterColonCapture rest)
        else afterColonCapture rest
      | [] => Option.none)

/-- Left-to-right non-overlapping scan of `re.findall`, fuelled by the
input length (each successful match consumes at least one character,
so the fuel never runs out on reachable inputs). -/
def findSpeakerAux : Nat → List Char → List (List Char)
  | 0, _ => []
  | _ + 1, [] => []
  | fuel + 1, s@(_ :: rest) =>
    match speakerMatchAt s with
    | Option.some (cap, after) => cap :: findSpeakerAux fuel after
    | Option.none => findSpeakerAux fuel rest

/-- Embedding of
`re.findall(r'Speaker[s]?:\s*([^<\n]+)', content, re.IGNORECASE)`. -/
def findSpeakerMatches (s : List Char) : List (List Char) :=
  findSpeakerAux s.length s

/-- Coerce an embedded value to the string Python functions expecting
`str` would receive (`re.findall` raises `TypeError` on non-strings;
that case is totalised to the empty string). -/
def pyAsStr (v : PyVal) : String :=
  match v with
  | .str s => s
  | _ => ""

/-- The meta mapping of a raw record: the value of its `meta` key when
that is a dict, else nothing to probe (the source guards the probing
loops with `'meta' in session`). -/
def metaOf (session : PyVal) : List (String × PyVal) :=
  match session with
  | .dict kvs =>
    match pyAssoc kvs "meta" with
    | Option.some (.dict mkvs) => mkvs
    | _ => []
  | _ => []

/-- The title extraction
`session.get('title', {}).get('rendered', 'Unknown Title')`. -/
def titleOf (session : PyVal) : PyVal :=
  pyDictGet (pyDictGet session "title" (.dict [])) "rendered"
    (.str "Unknown Title")

/-- The speaker list before the final placeholder substitution:
metadata probing first, then — only when that produced nothing and the
record has a `content` key — the regex fallback over the rendered
content. -/
def speakersPreDefault (session : PyVal) : List PyVal :=
  let speakers := collectSpeakers speaker_fields (metaOf session)
  if speakers.isEmpty && pyHasKey session "content" then
    let content :=
      pyAsStr (pyDictGet (pyIndex session "content") "rendered" (.str ""))
    let speaker_matches := findSpeakerMatches content.data
    if !speaker_matches.isEmpty then
      speaker_matches.map (fun m => PyVal.str ⟨stripChars m⟩)
    else speakers
  else speakers

/-- The loop body of `extract_session_info`: one raw record to the
canonical session dict
`{'id': ..., 'title': ..., 'speakers': ..., 'location': ..., 'datetime': ...}`
(built with exactly the source's key order and defaults). -/
def normalize_session (session : PyVal) : PyVal :=
  PyVal.dict
    [("id", pyDictGet session "id" .none),
     ("title", titleOf session),
     ("speakers", .list (if (speakersPreDefault session).isEmpty
                         then [PyVal.str "Unknown Speaker"]
                         else speakersPreDefault session)),
     ("location", pickLocation location_fields (metaOf session)),
     ("datetime", pyDictGet session "date" (.str ""))]

/-- Embedding of `extract_session_info`: normalize each raw record
independently. -/
def extract_session_info (session_data : List PyVal) : List PyVal :=
  session_data.map normalize_session

/-! ### Calendar Emitter (`generate_ics_calendar`) -/

mutual

/-- Python `repr` of an embedded value (used by `str` on lists, as in
an f-string interpolating a list).  String escaping inside `repr` is
not modelled; no theorem depends on it. -/
def pyRepr : PyVal → String
  | .str s => "'" ++ s ++ "'"
  | .num n => toString n
  | .none => "None"
  | .list xs => "[" ++ pyReprList xs ++ "]"
  | .dict _ => "\x7b...\x7d"

/-- Comma-separated `repr`s of a list's elements. -/
def pyReprList : List PyVal → String
  | [] => ""
  | [x] => pyRepr x
  | x :: y :: xs => pyRepr x ++ ", " ++ pyReprList (y :: xs)

end

/-- Python `str` of an embedded value, as produced by f-string
interpolation: strings verbatim, integers in decimal, `None` as
`"None"`, containers via `repr`. -/
def pyStr : PyVal → String
  | .str s => s
  | .num n => toString n
  | .none => "None"
  | .list xs => "[" ++ pyReprList xs ++ "]"
  | .dict _ => "\x7b...\x7d"

/-- The timestamp massaging applied in the DTSTART/DTEND lines:
`.replace('-', '').replace(':', '').replace('T', 'T')` (the last
replacement is the identity, kept verbatim from the source). -/
def compactTs (s : String) : String :=
  pyReplaceChar (pyReplaceChar (pyReplaceChar s '-' "") ':' "") 'T' "T"

/-- The `', '.join(session['speakers'])` step.  (Python's `join`
requires every element to be a `str` and raises otherwise; the
embedding renders each element with `pyStr`.) -/
def speakerListOf (session : PyVal) : String :=
  pyJoin ", "
    (match pyIndex session "speakers" with
     | .list xs => xs.map pyStr
     | v => [pyStr v])

/-- The lines of one `VEVENT` block, exactly as interpolated by the
source's f-string (the trailing `""` is the blank line the f-string
ends with).  Append operators are parenthesised so each line is
`literal-prefix ++ rest`. -/
def eventLines (session : PyVal) : List String :=
  ["BEGIN:VEVENT",
   "UID:" ++ (pyStr (pyIndex session "id") ++ "@wordcamp-favorites"),
   "DTSTART;TZID=America/Los_Angeles:" ++
     compactTs (pyStr (pyDictGet session "datetime" (.str "20250101T120000"))),
   "DTEND;TZID=America/Los_Angeles:" ++
     compactTs (pyStr (pyDictGet session "datetime" (.str "20250101T130000"))),
   "SUMMARY:" ++ pyStr (pyIndex session "title"),
   "DESCRIPTION:Speaker(s): " ++ speakerListOf session,
   "LOCATION:" ++ pyStr (pyIndex session "location"),
   "END:VEVENT",
   ""]

/-- The lines of the fixed header: calendar prologue plus the one
`VTIMEZONE` block, ending with the blank line of the source's
triple-quoted literal. -/
def icsHeaderLines : List String :=
  ["BEGIN:VCALENDAR",
   "VERSION:2.0",
   "PRODID:-//WordCamp Favorites//Session Calendar//EN",
   "CALSCALE:GREGORIAN",
   "METHOD:PUBLISH",
   "",
   "BEGIN:VTIMEZONE",
   "TZID:America/Los_Angeles",
   "BEGIN:DAYLIGHT",
   "TZOFFSETFROM:-0800",
   "TZOFFSETTO:-0700",
   "TZNAME:PDT",
   "DTSTART:20250309T020000",
   "RRULE:FREQ=YEARLY;BYMONTH=3;BYDAY=2SU",
   "END:DAYLIGHT",
   "BEGIN:STANDARD",
   "TZOFFSETFROM:-0700",
   "TZOFFSETTO:-0800",
   "TZNAME:PST",
   "DTSTART:20251102T020000",
   "RRULE:FREQ=YEARLY;BYMONTH=11;BYDAY=1SU",
   "END:STANDARD",
   "END:VTIMEZONE",
   ""]

/-- The generated ICS document as its list of lines: header and
timezone block, one event block per session in input order, and the
`END:VCALENDAR` footer.  Joining these lines with `"\n"` yields, for
every input, exactly the string the Python source builds by string
concatenation (a text field that itself contains a newline spans
several physical lines of the real document but stays inside one
element here; that is the document-corruption caveat the design notes
flag, and the block/identifier counting below is at line granularity). -/
def ics_lines (sessions : List PyVal) : List String :=
  icsHeaderLines ++ (sessions.map eventLines).flatten ++ ["END:VCALENDAR"]

/-- Embedding of `generate_ics_calendar`'s `ics_content` result (the
file write is the terminal side effect; its content is this string). -/
def generate_ics_calendar (sessions : List PyVal) : String :=
  pyJoin "\n" (ics_lines sessions)

/-- Number of lines equal to `pat` in a line list. -/
def countLine (pat : String) : List String → Nat
  | [] => 0
  | l :: ls => (if l == pat then 1 else 0) + countLine pat ls

/-- Whether a line is an event-identifier line (`UID:` prefix). -/
def startsWithUID (line : String) : Bool :=
  "UID:".data.isPrefixOf line.data

/-- The event-identifier lines of a document. -/
def uidLines (ls : List String) : List String :=
  ls.filter startsWithUID

/-- The shape of a canonical session record as emitted by the
normalizer and consumed by `generate_ics_calendar` without raising:
the five fixed keys in their emitted order, with the speaker sequence
a list of strings (required by `', '.join`) and the start time a
string (required by `.replace`); `id`, `title` and `location` may be
any value, since f-string interpolation accepts anything. -/
def WellFormedSession (s : PyVal) : Prop :=
  ∃ (i t loc : PyVal) (sp : List String) (dt : String),
    s = PyVal.dict
      [("id", i), ("title", t),
       ("speakers", PyVal.list (sp.map PyVal.str)),
       ("location", loc), ("datetime", PyVal.str dt)]

/-! ## Helper lemmas -/

/-- Rebuilding a string from its character list is the identity. -/
theorem strMk_data (s : String) : (⟨s.data⟩ : String) = s := by
  cases s
  rfl

/-- A string's character list is nonempty when the string is. -/
theorem data_ne_nil (s : String) (h : s ≠ "") : s.data ≠ [] := by
  intro e
  exact h (by rw [← strMk_data s, e])

/-- Two strings whose literal prefixes begin with different characters
are different, whatever follows the prefix. -/
theorem lit_append_ne (p x q : String) (c d : Char) {cp cq : List Char}
    (hp : p.data = c :: cp) (hq : q.data = d :: cq) (hcd : c ≠ d) :
    p ++ x ≠ q := by
  intro h
  have h2 := congrArg String.data h
  rw [String.data_append, hp, hq, List.cons_append] at h2
  exact hcd (List.head_eq_of_cons_eq h2)

/-- Boolean form of `lit_append_ne`. -/
theorem lit_append_beq_false (p x q : String) (c d : Char) {cp cq : List Char}
    (hp : p.data = c :: cp) (hq : q.data = d :: cq) (hcd : c ≠ d) :
    (p ++ x == q) = false :=
  beq_eq_false_iff_ne.mpr (lit_append_ne p x q c d hp hq hcd)

/-- Event-identifier lines are recognised whatever the identifier. -/
theorem startsWithUID_uid (x : String) : startsWithUID ("UID:" ++ x) = true := by
  have h : ("UID:" ++ x).data = 'U' :: 'I' :: 'D' :: ':' :: x.data := by
    rw [String.data_append]
    rfl
  simp [startsWithUID, h, List.isPrefixOf]

/-- A line whose literal prefix starts with a character other than `U`
is not an event-identifier line. -/
theorem startsWithUID_false (p x : String) (c : Char) {cp : List Char}
    (hp : p.data = c :: cp) (hc : c ≠ 'U') :
    startsWithUID (p ++ x) = false := by
  have h : (p ++ x).data = c :: (cp ++ x.data) := by
    rw [String.data_append, hp, List.cons_append]
  have hcu : ('U' == c) = false := beq_eq_false_iff_ne.mpr (Ne.symm hc)
  simp [startsWithUID, h, List.isPrefixOf, hcu]

/-- `countLine` is additive under concatenation. -/
theorem countLine_append (pat : String) (a b : List String) :
    countLine pat (a ++ b) = countLine pat a + countLine pat b := by
  induction a with
  | nil => simp [countLine]
  | cons x xs ih => simp [countLine, ih, Nat.add_assoc]

/-- Each event block contains exactly one `BEGIN:VEVENT` line. -/
theorem countLine_eventLines_begin (s : PyVal) :
    countLine "BEGIN:VEVENT" (eventLines s) = 1 := by
  simp only [eventLines, countLine]
  rw [lit_append_beq_false "UID:" _ _ 'U' 'B' rfl rfl (by decide),
    lit_append_beq_false "DTSTART;TZID=America/Los_Angeles:" _ _ 'D' 'B' rfl rfl (by decide),
    lit_append_beq_false "DTEND;TZID=America/Los_Angeles:" _ _ 'D' 'B' rfl rfl (by decide),
    lit_append_beq_false "SUMMARY:" _ _ 'S' 'B' rfl rfl (by decide),
    lit_append_beq_false "DESCRIPTION:Speaker(s): " _ _ 'D' 'B' rfl rfl (by decide),
    lit_append_beq_false "LOCATION:" _ _ 'L' 'B' rfl rfl (by decide)]
  rfl

/-- Each event block contains no `BEGIN:VTIMEZONE` line. -/
theorem countLine_eventLines_tz (s : PyVal) :
    countLine "BEGIN:VTIMEZONE" (eventLines s) = 0 := by
  simp only [eventLines, countLine]
  rw [lit_append_beq_false "UID:" _ _ 'U' 'B' rfl rfl (by decide),
    lit_append_beq_false "DTSTART;TZID=America/Los_Angeles:" _ _ 'D' 'B' rfl rfl (by decide),
    lit_append_beq_false "DTEND;TZID=America/Los_Angeles:" _ _ 'D' 'B' rfl rfl (by decide),
    lit_append_beq_false "SUMMARY:" _ _ 'S' 'B' rfl rfl (by decide),
    lit_append_beq_false "DESCRIPTION:Speaker(s): " _ _ 'D' 'B' rfl rfl (by decide),
    lit_append_beq_false "LOCATION:" _ _ 'L' 'B' rfl rfl (by decide)]
  rfl

/-- The `UID:` line is the only event-identifier line of a block. -/
theorem uidLines_eventLines (s : PyVal) :
    uidLines (eventLines s) =
      ["UID:" ++ (pyStr (pyIndex s "id") ++ "@wordcamp-favorites")] := by
  simp only [eventLines, uidLines, List.filter]
  rw [startsWithUID_uid,
    startsWithUID_false "DTSTART;TZID=America/Los_Angeles:" _ 'D' rfl (by decide),
    startsWithUID_false "DTEND;TZID=America/Los_Angeles:" _ 'D' rfl (by decide),
    startsWithUID_false "SUMMARY:" _ 'S' rfl (by decide),
    startsWithUID_false "DESCRIPTION:Speaker(s): " _ 'D' rfl (by decide),
    startsWithUID_false "LOCATION:" _ 'L' rfl (by decide)]
  rfl

/-- `breakOnChar` finds nothing when the character does not occur. -/
theorem breakOnChar_not_mem (c : Char) (l : List Char) (h : c ∉ l) :
    breakOnChar c l = (l, Option.none) := by
  induction l with
  | nil => rfl
  | cons a as ih =>
    have ha : ¬a = c := fun e => h (by simp [e])
    simp [breakOnChar, ha, ih (fun m => h (List.mem_cons_of_mem a m))]

/-- `breakOnChar` splits at the first occurrence of the character. -/
theorem breakOnChar_first (c : Char) (pre post : List Char) (h : c ∉ pre) :
    breakOnChar c (pre ++ c :: post) = (pre, Option.some post) := by
  induction pre with
  | nil => simp [breakOnChar]
  | cons a as ih =>
    have ha : ¬a = c := fun e => h (by simp [e])
    simp [breakOnChar, ha, ih (fun m => h (List.mem_cons_of_mem a m))]

/-- `splitOnChar` on a separator-free list yields that single part. -/
theorem splitOnChar_not_mem (c : Char) (l : List Char) (h : c ∉ l) :
    splitOnChar c l = [l] := by
  induction l with
  | nil => rfl
  | cons a as ih =>
    have ha : ¬a = c := fun e => h (by simp [e])
    simp [splitOnChar, ha, ih (fun m => h (List.mem_cons_of_mem a m))]

/-- `splitOnChar` peels off a separator-free first part. -/
theorem splitOnChar_first (c : Char) (t rest : List Char) (h : c ∉ t) :
    splitOnChar c (t ++ c :: rest) = t :: splitOnChar c rest := by
  induction t with
  | nil => simp [splitOnChar]
  | cons a as ih =>
    have ha : ¬a = c := fun e => h (by simp [e])
    rw [List.cons_append]
    simp only [splitOnChar, ha, if_false,
      ih (fun m => h (List.mem_cons_of_mem a m))]

/-- Splitting on the separator inverts joining with it when no part
contains the separator. -/
theorem splitOnChar_joinL (c : Char) (ts : List (List Char)) (h0 : ts ≠ [])
    (h : ∀ t ∈ ts, c ∉ t) :
    splitOnChar c (joinL [c] ts) = ts := by
  induction ts with
  | nil => exact absurd rfl h0
  | cons t ts ih =>
    cases ts with
    | nil => exact splitOnChar_not_mem c t (h t (by simp))
    | cons u us =>
      have step : joinL [c] (t :: u :: us) = t ++ c :: joinL [c] (u :: us) := by
        simp [joinL]
      rw [step, splitOnChar_first c t _ (h t (by simp))]
      rw [ih (by simp) (fun x hx => h x (List.mem_cons_of_mem t hx))]

/-- `chunkAux` does not depend on the fuel once the fuel covers the
input length. -/
theorem chunkAux_fuel (n : Nat) (hn : n ≠ 0) :
    ∀ (f1 f2 : Nat) (l : List α), l.length ≤ f1 → l.length ≤ f2 →
      chunkAux n f1 l = chunkAux n f2 l := by
  intro f1
  induction f1 with
  | zero =>
    intro f2 l h1 _
    have : l = [] := List.eq_nil_of_length_eq_zero (Nat.le_zero.mp h1)
    subst this
    cases f2 <;> rfl
  | succ g1 ih =>
    intro f2 l h1 h2
    cases l with
    | nil => cases f2 <;> rfl
    | cons a as =>
      cases f2 with
      | zero => exact absurd h2 (by simp)
      | succ g2 =>
        have hd : ((a :: as).drop n).length ≤ g1 := by
          rw [List.length_drop]
          have := Nat.sub_le_sub_right h1 n
          refine Nat.le_trans this ?_
          have h1n : 1 ≤ n := Nat.pos_of_ne_zero hn
          omega
        have hd2 : ((a :: as).drop n).length ≤ g2 := by
          rw [List.length_drop]
          have := Nat.sub_le_sub_right h2 n
          refine Nat.le_trans this ?_
          have h1n : 1 ≤ n := Nat.pos_of_ne_zero hn
          omega
        simp only [chunkAux]
        rw [ih g2 _ hd hd2]

/-- Unfolding `chunkList` on a nonempty list. -/
theorem chunkList_cons (n : Nat) (hn : n ≠ 0) (l : List α) (hl : l ≠ []) :
    chunkList n l = l.take n :: chunkList n (l.drop n) := by
  cases l with
  | nil => exact absurd rfl hl
  | cons a as =>
    simp only [chunkList, hn, if_false]
    simp only [List.length_cons, chunkAux]
    refine congrArg _ ?_
    exact chunkAux_fuel n hn as.length ((a :: as).drop n).length _
      (by rw [List.length_drop]; simp; omega)
      (Nat.le_refl _)

/-- `chunkList` on the empty list. -/
theorem chunkList_nil (n : Nat) : chunkList n ([] : List α) = [] := by
  cases n <;> rfl

/-- Concatenating the chunks restores the input list: the batches are
consecutive slices covering every element exactly once. -/
theorem chunkList_flatten (n : Nat) (hn : n ≠ 0) (l : List α) :
    (chunkList n l).flatten = l := by
  by_cases hl : l = []
  · subst hl
    rw [chunkList_nil]
    rfl
  · rw [chunkList_cons n hn l hl]
    rw [List.flatten_cons, chunkList_flatten n hn (l.drop n)]
    exact List.take_append_drop n l
termination_by l.length
decreasing_by
  rw [List.length_drop]
  exact Nat.sub_lt (List.length_pos.mpr hl) (Nat.pos_of_ne_zero hn)

/-- A list that fits in one batch yields exactly one chunk. -/
theorem chunkList_single (n : Nat) (hn : n ≠ 0) (l : List α) (hl : l ≠ [])
    (hlen : l.length ≤ n) : chunkList n l = [l] := by
  rw [chunkList_cons n hn l hl, List.take_of_length_le hlen,
    List.drop_eq_nil_of_le hlen, chunkList_nil]

/-- The batching fold of `fetch_session_data` concatenates, in order,
exactly the record lists of the batches the oracle answers. -/
theorem fetch_foldl (g : List String → Option (List PyVal)) :
    ∀ (bs : List (List String)) (acc : List PyVal),
      bs.foldl
        (fun all_sessions chunk =>
          match g chunk with
          | Option.some sessions => all_sessions ++ sessions
          | Option.none => all_sessions) acc
      = acc ++ (bs.filterMap g).flatten := by
  intro bs
  induction bs with
  | nil => intro acc; simp
  | cons b bs ih =>
    intro acc
    simp only [List.foldl_cons, List.filterMap_cons]
    cases hb : g b with
    | none => rw [ih acc]
    | some sessions => rw [ih (acc ++ sessions)]; simp

/-- The location probe never produces the empty string: the
placeholder is a nonempty literal and only truthy (hence nonempty)
values replace it. -/
theorem pickLocation_ne_empty (fs : List String)
    (meta : List (String × PyVal)) : pickLocation fs meta ≠ .str "" := by
  induction fs with
  | nil => simp [pickLocation]
  | cons f fs ih =>
    simp only [pickLocation]
    cases pyAssoc meta f with
    | none => exact ih
    | some v =>
      simp only []
      by_cases hv : pyTruthy v = true
      · simp only [hv, if_true]
        intro e
        subst e
        exact absurd hv (by decide)
      · simp only [Bool.not_eq_true] at hv
        simp [hv, ih]

/-- A truthy value contributes at least one speaker entry. -/
theorem listify_ne_nil (v : PyVal) (h : pyTruthy v = true) : listify v ≠ [] := by
  cases v <;> simp_all [listify, pyTruthy]

/-- The query component of `urlparse`: everything after the first `?`
(and before the first `#`). -/
theorem urlparse_query (u : String) :
    (urlparse u).query =
      ⟨((breakOnChar '?' (breakOnChar '#' u.data).1).2).getD []⟩ := rfl

/-- Evaluation of `extract_favorite_ids` on any URL whose query string
is a sole `fav-sessions` parameter with a nonempty value: the result
is exactly the comma-split, whitespace-stripped token list of that
value, in source order, with nothing deduplicated or filtered.  The
hypotheses keep the prefix free of `#`/`?` and the value free of the
query-structure characters `#`, `&`, `?` and of the `%`/`+` escapes the
embedding of `parse_qs` does not model. -/
theorem extract_fav_general (pre v : String)
    (hpre : ∀ ch ∈ pre.data, ch ≠ '#' ∧ ch ≠ '?')
    (hv : ∀ ch ∈ v.data, ch ≠ '#' ∧ ch ≠ '&' ∧ ch ≠ '?' ∧ ch ≠ '%' ∧ ch ≠ '+')
    (hne : v ≠ "") :
    extract_favorite_ids (pre ++ "?fav-sessions=" ++ v) =
      (splitOnChar ',' v.data).map (fun t => pyStrip ⟨t⟩) := by
  have hdata : (pre ++ "?fav-sessions=" ++ v).data =
      pre.data ++ ('?' :: ("fav-sessions=".data ++ v.data)) := by
    rw [String.data_append, String.data_append, List.append_assoc]
    have e : "?fav-sessions=".data = '?' :: "fav-sessions=".data := rfl
    rw [e, List.cons_append]
  have hno : '#' ∉ (pre ++ "?fav-sessions=" ++ v).data := by
    rw [hdata]
    intro m
    rcases List.mem_append.mp m with m1 | m2
    · exact (hpre _ m1).1 rfl
    · rcases List.mem_cons.mp m2 with e | m3
      · exact absurd e (by decide)
      · rcases List.mem_append.mp m3 with m4 | m5
        · exact absurd m4 (by decide)
        · exact (hv _ m5).1 rfl
  have h1 : breakOnChar '#' (pre ++ "?fav-sessions=" ++ v).data =
      ((pre ++ "?fav-sessions=" ++ v).data, Option.none) :=
    breakOnChar_not_mem _ _ hno
  have h2 : breakOnChar '?' (pre ++ "?fav-sessions=" ++ v).data =
      (pre.data, Option.some ("fav-sessions=".data ++ v.data)) := by
    rw [hdata]
    exact breakOnChar_first '?' pre.data _ (fun m => (hpre _ m).2 rfl)
  have hq : (urlparse (pre ++ "?fav-sessions=" ++ v)).query =
      ⟨"fav-sessions=".data ++ v.data⟩ := by
    rw [urlparse_query, h1]
    show (⟨((breakOnChar '?' ((pre ++ "?fav-sessions=" ++ v).data)).2).getD []⟩ :
      String) = _
    rw [h2]
    rfl
  have hvne : v.data ≠ [] := data_ne_nil v hne
  have hfield : "fav-sessions=".data ++ v.data =
      "fav-sessions".data ++ '=' :: v.data := by
    have e : "fav-sessions=".data = "fav-sessions".data ++ ['='] := rfl
    rw [e, List.append_assoc, List.singleton_append]
  have hps : parse_qs ⟨"fav-sessions=".data ++ v.data⟩ =
      [("fav-sessions", [v])] := by
    unfold parse_qs
    have hamp : '&' ∉ "fav-sessions=".data ++ v.data := by
      intro m
      rcases List.mem_append.mp m with m1 | m2
      · exact absurd m1 (by decide)
      · exact (hv _ m2).2.1 rfl
    have hsplit : splitOnChar '&' (String.data ⟨"fav-sessions=".data ++ v.data⟩) =
        [("fav-sessions=".data ++ v.data)] :=
      splitOnChar_not_mem '&' _ hamp
    rw [hsplit, List.foldl_cons, List.foldl_nil]
    have hEmpty : ("fav-sessions=".data ++ v.data).isEmpty = false := rfl
    rw [hEmpty]
    simp only [Bool.false_eq_true, if_false]
    rw [hfield, breakOnChar_first '=' "fav-sessions".data v.data (by decide)]
    simp only []
    have hvF : v.data.isEmpty = false := by
      cases hd : v.data with
      | nil => exact absurd hd hvne
      | cons a as => rfl
    rw [hvF]
    simp only [Bool.false_eq_true, if_false]
    rw [strMk_data v]
    rfl
  simp only [extract_favorite_ids]
  rw [hq, hps]
  have hget : qsGet [("fav-sessions", [v])] "fav-sessions" = [v] := rfl
  rw [hget]
  simp only [List.isEmpty_cons, Bool.false_eq_true, if_false, List.headD_cons]

/-- Characters of a joined list come from the separator or a part. -/
theorem mem_joinL (sep : List Char) (ts : List (List Char)) (ch : Char)
    (h : ch ∈ joinL sep ts) : ch ∈ sep ∨ ∃ t ∈ ts, ch ∈ t := by
  induction ts with
  | nil => simp [joinL] at h
  | cons t ts ih =>
    cases ts with
    | nil => exact Or.inr ⟨t, by simp, h⟩
    | cons u us =>
      rw [show joinL sep (t :: u :: us) = t ++ sep ++ joinL sep (u :: us)
        from rfl] at h
      rcases List.mem_append.mp h with h1 | h2
      · rcases List.mem_append.mp h1 with h3 | h4
        · exact Or.inr ⟨t, by simp, h3⟩
        · exact Or.inl h4
      · rcases ih h2 with h5 | h6
        · exact Or.inl h5
        · rcases h6 with ⟨x, hx, hcx⟩
          exact Or.inr ⟨x, List.mem_cons_of_mem t hx, hcx⟩

/-! ## Claims -/

/-- Claim C1.  The claim states that `get_wordcamp_base_url` removes
exactly the literal trailing path segment `/schedule/` and nothing
else.  The code instead calls `path.rstrip('/schedule/')`, whose
argument is a character SET, so trailing base-path characters drawn
from `{s,c,h,e,d,u,l,/}` are stripped too: for the schedule URL
`https://us.wordcamp.org/2025-us/schedule/` (true base path
`/2025-us`) the result is `https://us.wordcamp.org/2025-`, not the
claimed `https://us.wordcamp.org/2025-us`. -/
theorem C1_rstrip_eats_base_path :
    get_wordcamp_base_url "https://us.wordcamp.org/2025-us/schedule/"
        = "https://us.wordcamp.org/2025-" ∧
      get_wordcamp_base_url "https://us.wordcamp.org/2025-us/schedule/"
        ≠ "https://us.wordcamp.org/2025-us" :=
  ⟨by decide, by decide⟩

/-- Claim C2, counterexample.  For a record whose meta carries truthy
values under both `_wcpt_speaker_id` (first probe field) and
`speakers` (second probe field), the normalized speaker sequence is
`["Alice", "Bob"]` — the later field contributed — and not the
`["Alice"]` the first-field-wins claim predicts. -/
theorem C2_counterexample :
    (extract_session_info
        [PyVal.dict [("meta", PyVal.dict
          [("_wcpt_speaker_id", PyVal.str "Alice"),
           ("speakers", PyVal.str "Bob")])]]).map
        (fun r => pyIndex r "speakers")
      = [PyVal.list [PyVal.str "Alice", PyVal.str "Bob"]] ∧
    [PyVal.list [PyVal.str "Alice", PyVal.str "Bob"]]
      ≠ [PyVal.list [PyVal.str "Alice"]] :=
  ⟨rfl, by simp⟩

/-- Claim C2, amended.  First conjunct: for EVERY meta mapping, the
metadata speaker probe returns the concatenation, in probe order
(`_wcpt_speaker_id`, `speakers`, `_wcb_session_speakers`), of the
listified value of every field present with a truthy value — the loop
has no first-field-wins `break`, so later fields contribute too.
Second conjunct: for every raw record whose metadata probe contributed
at least one entry, the canonical speaker sequence is exactly that
concatenation (neither the content-regex fallback nor the placeholder
is applied). -/
theorem C2_speakers_concat_all_fields :
    (∀ meta : List (String × PyVal),
      collectSpeakers speaker_fields meta =
        (speaker_fields.map (fun f =>
          match pyAssoc meta f with
          | Option.some v => if pyTruthy v then listify v else []
          | Option.none => [])).flatten) ∧
    ∀ s : PyVal, collectSpeakers speaker_fields (metaOf s) ≠ [] →
      (extract_session_info [s]).map (fun r => pyIndex r "speakers") =
        [PyVal.list (collectSpeakers speaker_fields (metaOf s))] := by
  have hfold : ∀ (meta : List (String × PyVal)) (fields : List String)
      (acc : List PyVal),
      fields.foldl
        (fun speakers field =>
          match pyAssoc meta field with
          | Option.some v =>
            if pyTruthy v then speakers ++ listify v else speakers
          | Option.none => speakers) acc
      = acc ++ (fields.map (fun f =>
          match pyAssoc meta f with
          | Option.some v => if pyTruthy v then listify v else []
          | Option.none => [])).flatten := by
    intro meta fields
    induction fields with
    | nil =>
      intro acc
      simp
    | cons f fs ih =>
      intro acc
      simp only [List.foldl_cons, List.map_cons, List.flatten_cons]
      rw [ih]
      cases h : pyAssoc meta f with
      | none => simp
      | some v =>
        by_cases hv : pyTruthy v = true
        · simp [hv, List.append_assoc]
        · simp only [Bool.not_eq_true] at hv
          simp [hv]
  constructor
  · intro meta
    simp only [collectSpeakers]
    rw [hfold meta speaker_fields []]
    rw [List.nil_append]
  · intro s hne
    have hE : (collectSpeakers speaker_fields (metaOf s)).isEmpty = false := by
      cases e : collectSpeakers speaker_fields (metaOf s) with
      | nil => exact absurd e hne
      | cons a as => rfl
    have hpre : speakersPreDefault s =
        collectSpeakers speaker_fields (metaOf s) := by
      simp only [speakersPreDefault, hE, Bool.false_and,
        Bool.false_eq_true, if_false]
    have hidx : pyIndex (normalize_session s) "speakers" =
        PyVal.list (if (speakersPreDefault s).isEmpty
          then [PyVal.str "Unknown Speaker"]
          else speakersPreDefault s) := rfl
    show [pyIndex (normalize_session s) "speakers"] = _
    rw [hidx, hpre, hE]
    simp

/-- Claim C2, witness for the amended theorem at a record carrying all
three speaker probe fields with truthy values. -/
theorem C2_witness :
    collectSpeakers speaker_fields
        [("_wcpt_speaker_id", PyVal.str "A"),
         ("speakers", PyVal.list [PyVal.str "B", PyVal.str "C"]),
         ("_wcb_session_speakers", PyVal.str "D")]
      = [PyVal.str "A", PyVal.str "B", PyVal.str "C", PyVal.str "D"] ∧
    (extract_session_info [PyVal.dict [("meta", PyVal.dict
        [("_wcpt_speaker_id", PyVal.str "A"),
         ("speakers", PyVal.list [PyVal.str "B", PyVal.str "C"]),
         ("_wcb_session_speakers", PyVal.str "D")])]]).map
        (fun r => pyIndex r "speakers")
      = [PyVal.list [PyVal.str "A", PyVal.str "B", PyVal.str "C",
          PyVal.str "D"]] := by
  have h := C2_speakers_concat_all_fields
  refine ⟨(h.1 _).trans rfl, ?_⟩
  exact (h.2 (PyVal.dict [("meta", PyVal.dict
    [("_wcpt_speaker_id", PyVal.str "A"),
     ("speakers", PyVal.list [PyVal.str "B", PyVal.str "C"]),
     ("_wcb_session_speakers", PyVal.str "D")])])
    (fun e => List.noConfusion e)).trans rfl

/-- Claim C3.  The claim states that a canonical session with an empty
start-time field is emitted with the literal default timestamps
`20250101T120000` / `20250101T130000`.  In the code the defaults are
the second argument of `session.get('datetime', ...)`, and the
normalizer always stores a `'datetime'` key, so for a record whose
`date` is the empty string the emitted DTSTART/DTEND lines carry an
EMPTY timestamp and the defaults never appear. -/
theorem C3_empty_start_not_defaulted :
    "DTSTART;TZID=America/Los_Angeles:" ∈
        ics_lines (extract_session_info
          [PyVal.dict [("id", PyVal.num 7), ("date", PyVal.str "")]]) ∧
      "DTEND;TZID=America/Los_Angeles:" ∈
        ics_lines (extract_session_info
          [PyVal.dict [("id", PyVal.num 7), ("date", PyVal.str "")]]) ∧
      "DTSTART;TZID=America/Los_Angeles:20250101T120000" ∉
        ics_lines (extract_session_info
          [PyVal.dict [("id", PyVal.num 7), ("date", PyVal.str "")]]) ∧
      "DTEND;TZID=America/Los_Angeles:20250101T130000" ∉
        ics_lines (extract_session_info
          [PyVal.dict [("id", PyVal.num 7), ("date", PyVal.str "")]]) := by
  refine ⟨by decide, by decide, by decide, by decide⟩

/-- Claim C4, counterexample.  A raw record whose nested rendered
title is PRESENT but equal to the empty string normalizes to an
empty-string title: `dict.get`'s default substitutes only for an
absent key, so the claimed never-empty invariant fails for `title`. -/
theorem C4_counterexample :
    (extract_session_info
        [PyVal.dict [("title", PyVal.dict [("rendered", PyVal.str "")])]]).map
        (fun r => pyIndex r "title")
      = [PyVal.str ""] := rfl

/-- Claim C4, amended.  For every sequence of raw records, every
canonical record produced by the normalizer has a non-empty speaker
sequence and a location that is not the empty string (placeholders are
substituted); the `title` clause of the original claim is dropped, as
a present-but-empty rendered title propagates verbatim. -/
theorem C4_speakers_location_invariant (session_data : List PyVal)
    (r : PyVal) (hr : r ∈ extract_session_info session_data) :
    pyIndex r "speakers" ≠ PyVal.list [] ∧
      pyIndex r "location" ≠ PyVal.str "" := by
  rcases List.mem_map.mp hr with ⟨s, _, he⟩
  subst he
  constructor
  · have hsp : pyIndex (normalize_session s) "speakers" =
        PyVal.list (if (speakersPreDefault s).isEmpty
          then [PyVal.str "Unknown Speaker"] else speakersPreDefault s) := rfl
    rw [hsp]
    split
    · simp
    · rename_i hsp2
      intro he2
      rw [PyVal.list.injEq] at he2
      rw [he2] at hsp2
      exact hsp2 rfl
  · have hloc : pyIndex (normalize_session s) "location" =
        pickLocation location_fields (metaOf s) := rfl
    rw [hloc]
    exact pickLocation_ne_empty _ _

/-- Claim C4, witness for the amended theorem at a concrete record. -/
theorem C4_witness :
    pyIndex (PyVal.dict
        [("id", PyVal.none), ("title", PyVal.str "Unknown Title"),
         ("speakers", PyVal.list [PyVal.str "Unknown Speaker"]),
         ("location", PyVal.str "Unknown Location"),
         ("datetime", PyVal.str "")]) "speakers" ≠ PyVal.list [] ∧
      pyIndex (PyVal.dict
        [("id", PyVal.none), ("title", PyVal.str "Unknown Title"),
         ("speakers", PyVal.list [PyVal.str "Unknown Speaker"]),
         ("location", PyVal.str "Unknown Location"),
         ("datetime", PyVal.str "")]) "location" ≠ PyVal.str "" :=
  C4_speakers_location_invariant [PyVal.dict []] _ (List.Mem.head _)

/-- The UID lines of the concatenated event blocks, in order. -/
theorem uidLines_flatten (ss : List PyVal) :
    ((ss.map eventLines).flatten).filter startsWithUID =
      ss.map (fun s =>
        "UID:" ++ (pyStr (pyIndex s "id") ++ "@wordcamp-favorites")) := by
  induction ss with
  | nil => rfl
  | cons s ss ih =>
    rw [List.map_cons, List.flatten_cons, List.filter_append, ih]
    have h := uidLines_eventLines s
    unfold uidLines at h
    rw [h, List.map_cons, List.singleton_append]

/-- Prepending the UID prefix and appending the fixed suffix is
injective in the rendered identifier. -/
theorem uid_wrap_inj :
    Function.Injective
      (fun x : String => "UID:" ++ (x ++ "@wordcamp-favorites")) := by
  intro x y h
  have h2 := congrArg String.data h
  simp only [String.data_append] at h2
  have h3 := List.append_cancel_left h2
  have h4 := List.append_cancel_right h3
  rw [← strMk_data x, ← strMk_data y, h4]

/-- Claim C5, counterexample.  Two complete canonical records — all
five fields populated with renderable values, as the normalizer emits
and the Python emitter consumes without raising — sharing the same
session id render to a document whose event identifiers are NOT
pairwise distinct: both events carry `UID:5@wordcamp-favorites`. -/
theorem C5_counterexample :
    ¬ (uidLines (ics_lines
        [PyVal.dict
          [("id", PyVal.num 5), ("title", PyVal.str "Talk A"),
           ("speakers", PyVal.list [PyVal.str "X"]),
           ("location", PyVal.str "Track 1"),
           ("datetime", PyVal.str "2025-06-14T10:00:00")],
         PyVal.dict
          [("id", PyVal.num 5), ("title", PyVal.str "Talk B"),
           ("speakers", PyVal.list [PyVal.str "Y"]),
           ("location", PyVal.str "Track 2"),
           ("datetime", PyVal.str "2025-06-14T11:00:00")]])).Nodup := by
  decide

/-- Claim C5, amended.  Rendering `N` well-formed canonical sessions
(the five-field records the normalizer emits and the Python emitter
accepts without raising) produces a line-structured document with
exactly `N` `BEGIN:VEVENT` lines and exactly one `BEGIN:VTIMEZONE`
line, and the event identifiers are pairwise distinct PROVIDED the
sessions' rendered ids are pairwise distinct (the UID is the id plus a
fixed suffix, so duplicate ids yield duplicate UIDs). -/
theorem C5_render_counts (sessions : List PyVal)
    (_hwf : ∀ s ∈ sessions, WellFormedSession s) :
    countLine "BEGIN:VEVENT" (ics_lines sessions) = sessions.length ∧
      countLine "BEGIN:VTIMEZONE" (ics_lines sessions) = 1 ∧
      ((sessions.map (fun s => pyStr (pyIndex s "id"))).Nodup →
        (uidLines (ics_lines sessions)).Nodup) := by
  have hflatB : ∀ ss : List PyVal,
      countLine "BEGIN:VEVENT" ((ss.map eventLines).flatten) = ss.length := by
    intro ss
    induction ss with
    | nil => rfl
    | cons s ss ih =>
      rw [List.map_cons, List.flatten_cons, countLine_append,
        countLine_eventLines_begin, ih, List.length_cons]
      omega
  have hflatT : ∀ ss : List PyVal,
      countLine "BEGIN:VTIMEZONE" ((ss.map eventLines).flatten) = 0 := by
    intro ss
    induction ss with
    | nil => rfl
    | cons s ss ih =>
      rw [List.map_cons, List.flatten_cons, countLine_append,
        countLine_eventLines_tz, ih]
  refine ⟨?_, ?_, ?_⟩
  · rw [ics_lines, countLine_append, countLine_append, hflatB]
    have h1 : countLine "BEGIN:VEVENT" icsHeaderLines = 0 := by decide
    have h2 : countLine "BEGIN:VEVENT" ["END:VCALENDAR"] = 0 := by decide
    rw [h1, h2]
    omega
  · rw [ics_lines, countLine_append, countLine_append, hflatT]
    have h1 : countLine "BEGIN:VTIMEZONE" icsHeaderLines = 1 := by decide
    have h2 : countLine "BEGIN:VTIMEZONE" ["END:VCALENDAR"] = 0 := by decide
    rw [h1, h2]
  · intro hnd
    have huid : uidLines (ics_lines sessions) =
        sessions.map (fun s =>
          "UID:" ++ (pyStr (pyIndex s "id") ++ "@wordcamp-favorites")) := by
      rw [ics_lines, uidLines, List.filter_append, List.filter_append]
      have h1 : icsHeaderLines.filter startsWithUID = [] := by decide
      have h2 : (["END:VCALENDAR"]).filter startsWithUID = [] := by decide
      rw [h1, h2, uidLines_flatten, List.nil_append, List.append_nil]
    rw [huid]
    have hm : sessions.map (fun s =>
        "UID:" ++ (pyStr (pyIndex s "id") ++ "@wordcamp-favorites")) =
        (sessions.map (fun s => pyStr (pyIndex s "id"))).map
          (fun x => "UID:" ++ (x ++ "@wordcamp-favorites")) := by
      rw [List.map_map]
      rfl
    rw [hm]
    exact hnd.map uid_wrap_inj

/-- Claim C5, witness for the amended theorem on two complete
canonical sessions with distinct ids. -/
theorem C5_witness :
    countLine "BEGIN:VEVENT" (ics_lines
        [PyVal.dict
          [("id", PyVal.num 1), ("title", PyVal.str "Talk A"),
           ("speakers", PyVal.list [PyVal.str "X"]),
           ("location", PyVal.str "Track 1"),
           ("datetime", PyVal.str "2025-06-14T10:00:00")],
         PyVal.dict
          [("id", PyVal.num 2), ("title", PyVal.str "Talk B"),
           ("speakers", PyVal.list [PyVal.str "Y"]),
           ("location", PyVal.str "Track 2"),
           ("datetime", PyVal.str "2025-06-14T11:00:00")]])
      = 2 ∧
    countLine "BEGIN:VTIMEZONE" (ics_lines
        [PyVal.dict
          [("id", PyVal.num 1), ("title", PyVal.str "Talk A"),
           ("speakers", PyVal.list [PyVal.str "X"]),
           ("location", PyVal.str "Track 1"),
           ("datetime", PyVal.str "2025-06-14T10:00:00")],
         PyVal.dict
          [("id", PyVal.num 2), ("title", PyVal.str "Talk B"),
           ("speakers", PyVal.list [PyVal.str "Y"]),
           ("location", PyVal.str "Track 2"),
           ("datetime", PyVal.str "2025-06-14T11:00:00")]])
      = 1 ∧
    (uidLines (ics_lines
        [PyVal.dict
          [("id", PyVal.num 1), ("title", PyVal.str "Talk A"),
           ("speakers", PyVal.list [PyVal.str "X"]),
           ("location", PyVal.str "Track 1"),
           ("datetime", PyVal.str "2025-06-14T10:00:00")],
         PyVal.dict
          [("id", PyVal.num 2), ("title", PyVal.str "Talk B"),
           ("speakers", PyVal.list [PyVal.str "Y"]),
           ("location", PyVal.str "Track 2"),
           ("datetime", PyVal.str "2025-06-14T11:00:00")]])).Nodup := by
  have hwf : ∀ s ∈
      [PyVal.dict
        [("id", PyVal.num 1), ("title", PyVal.str "Talk A"),
         ("speakers", PyVal.list [PyVal.str "X"]),
         ("location", PyVal.str "Track 1"),
         ("datetime", PyVal.str "2025-06-14T10:00:00")],
       PyVal.dict
        [("id", PyVal.num 2), ("title", PyVal.str "Talk B"),
         ("speakers", PyVal.list [PyVal.str "Y"]),
         ("location", PyVal.str "Track 2"),
         ("datetime", PyVal.str "2025-06-14T11:00:00")]],
      WellFormedSession s := by
    intro s hs
    rcases List.mem_cons.mp hs with e | hs2
    · subst e
      exact ⟨PyVal.num 1, PyVal.str "Talk A", PyVal.str "Track 1", ["X"],
        "2025-06-14T10:00:00", rfl⟩
    · rcases List.mem_cons.mp hs2 with e | hs3
      · subst e
        exact ⟨PyVal.num 2, PyVal.str "Talk B", PyVal.str "Track 2", ["Y"],
          "2025-06-14T11:00:00", rfl⟩
      · cases hs3
  have h := C5_render_counts
    [PyVal.dict
      [("id", PyVal.num 1), ("title", PyVal.str "Talk A"),
       ("speakers", PyVal.list [PyVal.str "X"]),
       ("location", PyVal.str "Track 1"),
       ("datetime", PyVal.str "2025-06-14T10:00:00")],
     PyVal.dict
      [("id", PyVal.num 2), ("title", PyVal.str "Talk B"),
       ("speakers", PyVal.list [PyVal.str "Y"]),
       ("location", PyVal.str "Track 2"),
       ("datetime", PyVal.str "2025-06-14T11:00:00")]] hwf
  exact ⟨h.1, h.2.1, h.2.2 (by decide)⟩

/-- Claim C6.  Batching in `fetch_session_data` slices the identifier
list into consecutive batches of ten: for any 23 identifiers the batch
sizes are `[10, 10, 3]` and concatenating the batches restores the
identifier list, so every identifier appears in exactly one batch. -/
theorem C6_batches (ids : List String) (h : ids.length = 23) :
    (chunkList 10 ids).map List.length = [10, 10, 3] ∧
      (chunkList 10 ids).flatten = ids := by
  constructor
  · have h1 : ids ≠ [] := by
      intro e
      rw [e] at h
      simp at h
    rw [chunkList_cons 10 (by decide) ids h1]
    have hl1 : (ids.drop 10).length = 13 := by
      rw [List.length_drop, h]
    have h2 : ids.drop 10 ≠ [] := by
      intro e
      rw [e] at hl1
      simp at hl1
    rw [chunkList_cons 10 (by decide) _ h2]
    have hl2 : ((ids.drop 10).drop 10).length = 3 := by
      rw [List.length_drop, hl1]
    have h3 : (ids.drop 10).drop 10 ≠ [] := by
      intro e
      rw [e] at hl2
      simp at hl2
    rw [chunkList_single 10 (by decide) _ h3 (by omega)]
    simp [List.length_take, h, hl1, hl2]
  · exact chunkList_flatten 10 (by decide) ids

/-- Claim C6, witness at a concrete 23-identifier list. -/
theorem C6_witness :
    (chunkList 10 ["1", "2", "3", "4", "5", "6", "7", "8", "9", "10", "11",
        "12", "13", "14", "15", "16", "17", "18", "19", "20", "21", "22",
        "23"]).map List.length = [10, 10, 3] ∧
      (chunkList 10 ["1", "2", "3", "4", "5", "6", "7", "8", "9", "10", "11",
        "12", "13", "14", "15", "16", "17", "18", "19", "20", "21", "22",
        "23"]).flatten
      = ["1", "2", "3", "4", "5", "6", "7", "8", "9", "10", "11", "12", "13",
         "14", "15", "16", "17", "18", "19", "20", "21", "22", "23"] :=
  C6_batches _ (by decide)

/-- Claim C7.  For every oracle modelling the per-batch HTTP outcome,
`fetch_session_data` never aborts: its result is the in-order
concatenation of the record lists of exactly the successful batches (a
failed batch's identifiers are dropped), and when every batch fails
the result is empty. -/
theorem C7_partial_failure (http : String → String → Option (List PyVal))
    (base_url : String) (session_ids : List String) :
    fetch_session_data http base_url session_ids =
        ((chunkList 10 session_ids).filterMap
          (fun chunk =>
            http (base_url ++ "/wp-json/wp/v2/sessions")
              (pyJoin "," chunk))).flatten ∧
      ((∀ chunk ∈ chunkList 10 session_ids,
          http (base_url ++ "/wp-json/wp/v2/sessions") (pyJoin "," chunk) =
            Option.none) →
        fetch_session_data http base_url session_ids = []) := by
  have key : fetch_session_data http base_url session_ids =
      ((chunkList 10 session_ids).filterMap
        (fun chunk =>
          http (base_url ++ "/wp-json/wp/v2/sessions")
            (pyJoin "," chunk))).flatten := by
    simp only [fetch_session_data]
    rw [fetch_foldl
      (fun chunk =>
        http (base_url ++ "/wp-json/wp/v2/sessions") (pyJoin "," chunk))
      (chunkList 10 session_ids) []]
    rw [List.nil_append]
  refine ⟨key, fun hall => ?_⟩
  rw [key, List.filterMap_eq_nil_iff.mpr hall]
  rfl

/-- Claim C7, witness: with an oracle that fails every batch, the
fetch of two identifiers degrades to the empty record list. -/
theorem C7_witness :
    fetch_session_data (fun _ _ => Option.none)
      "https://us.wordcamp.org/2025" ["1", "2"] = [] :=
  (C7_partial_failure (fun _ _ => Option.none)
    "https://us.wordcamp.org/2025" ["1", "2"]).2 (fun _ _ => rfl)

/-- Claim C8.  For the favorites value `12, 34 ,56` the extracted
identifier sequence is exactly `["12", "34", "56"]`: split on commas,
whitespace trimmed, source order preserved. -/
theorem C8_split_and_trim :
    extract_favorite_ids
      "https://us.wordcamp.org/2025/schedule/?fav-sessions=12, 34 ,56"
      = ["12", "34", "56"] := by
  decide

/-- Claim C9, counterexample.  The extractor does NOT deduplicate: for
the favorites value `12,12` the result is `["12", "12"]`, which is not
duplicate-free. -/
theorem C9_counterexample :
    extract_favorite_ids
        "https://us.wordcamp.org/2025/schedule/?fav-sessions=12,12"
      = ["12", "12"] ∧
    ¬ (extract_favorite_ids
        "https://us.wordcamp.org/2025/schedule/?fav-sessions=12,12").Nodup :=
  ⟨by decide, by decide⟩

/-- Claim C9, amended.  For every schedule URL whose query string is a
sole nonempty `fav-sessions` parameter (no `#`/`?` in the prefix, no
query-structure characters or unmodelled `%`/`+` escapes in the
value), the extracted sequence is exactly the comma-split,
whitespace-stripped token sequence of the value in source order: the
order of appearance is preserved, but duplicates are NOT removed — an
identifier occurring k times among the tokens occurs k times in the
result, as the per-identifier counts record. -/
theorem C9_order_kept_duplicates_kept (pre v : String)
    (hpre : ∀ ch ∈ pre.data, ch ≠ '#' ∧ ch ≠ '?')
    (hv : ∀ ch ∈ v.data,
      ch ≠ '#' ∧ ch ≠ '&' ∧ ch ≠ '?' ∧ ch ≠ '%' ∧ ch ≠ '+')
    (hne : v ≠ "") :
    extract_favorite_ids (pre ++ "?fav-sessions=" ++ v) =
        (splitOnChar ',' v.data).map (fun t => pyStrip ⟨t⟩) ∧
      ∀ s : String,
        (extract_favorite_ids (pre ++ "?fav-sessions=" ++ v)).count s =
          ((splitOnChar ',' v.data).map (fun t => pyStrip ⟨t⟩)).count s := by
  have h := extract_fav_general pre v hpre hv hne
  exact ⟨h, fun s => by rw [h]⟩

/-- Claim C9, witness at the duplicated value `12,12`. -/
theorem C9_witness :
    extract_favorite_ids
        ("https://us.wordcamp.org/2025/schedule" ++ "?fav-sessions=" ++
          "12,12")
      = ["12", "12"] := by
  have h := (C9_order_kept_duplicates_kept
    "https://us.wordcamp.org/2025/schedule" "12,12"
    (by decide) (by decide) (by decide)).1
  exact h.trans (by decide)

/-- Claim C10.  Empty tokens between commas (or after a trailing
comma) are kept: for a nonempty token list joined by commas, the
extractor returns one (stripped) identifier per token — including the
empty string for empty tokens — and, for lists that fit in one batch,
the `include` filter `','.join(chunk)` built by `fetch_session_data`
carries those empty tokens verbatim. -/
theorem C10_empty_tokens_kept (ts : List String) (h0 : ts ≠ [])
    (hts : ∀ t ∈ ts, ∀ ch ∈ t.data,
      ch ≠ ',' ∧ ch ≠ '#' ∧ ch ≠ '&' ∧ ch ≠ '?' ∧ ch ≠ '%' ∧ ch ≠ '+')
    (hjoin : joinL [','] (ts.map String.data) ≠ [])
    (hlen : ts.length ≤ 10) :
    extract_favorite_ids
        ("https://us.wordcamp.org/2025/schedule" ++ "?fav-sessions=" ++
          ⟨joinL [','] (ts.map String.data)⟩)
      = ts.map pyStrip ∧
    (chunkList 10 (ts.map pyStrip)).map (fun chunk => pyJoin "," chunk)
      = [pyJoin "," (ts.map pyStrip)] := by
  have hvdata : (⟨joinL [','] (ts.map String.data)⟩ : String).data =
      joinL [','] (ts.map String.data) := rfl
  have hv : ∀ ch ∈ (⟨joinL [','] (ts.map String.data)⟩ : String).data,
      ch ≠ '#' ∧ ch ≠ '&' ∧ ch ≠ '?' ∧ ch ≠ '%' ∧ ch ≠ '+' := by
    intro ch hm
    rw [hvdata] at hm
    rcases mem_joinL _ _ _ hm with hsep | hpart
    · rcases List.mem_singleton.mp hsep with e
      subst e
      refine ⟨by decide, by decide, by decide, by decide, by decide⟩
    · rcases hpart with ⟨t, ht, hct⟩
      rcases List.mem_map.mp ht with ⟨t0, ht0, he⟩
      subst he
      have := hts t0 ht0 ch hct
      exact ⟨this.2.1, this.2.2.1, this.2.2.2.1, this.2.2.2.2.1,
        this.2.2.2.2.2⟩
  have hne : (⟨joinL [','] (ts.map String.data)⟩ : String) ≠ "" := by
    intro e
    exact hjoin (congrArg String.data e)
  have h1 := extract_fav_general "https://us.wordcamp.org/2025/schedule"
    ⟨joinL [','] (ts.map String.data)⟩ (by decide) hv hne
  have hsplit : splitOnChar ','
      ((⟨joinL [','] (ts.map String.data)⟩ : String).data) =
      ts.map String.data := by
    rw [hvdata]
    refine splitOnChar_joinL ',' (ts.map String.data) ?_ ?_
    · intro e
      exact h0 (List.map_eq_nil_iff.mp e)
    · intro t ht
      rcases List.mem_map.mp ht with ⟨t0, ht0, he⟩
      subst he
      intro hc
      exact (hts t0 ht0 ',' hc).1 rfl
  constructor
  · rw [h1, hsplit, List.map_map]
    refine List.map_congr_left ?_
    intro t _
    show pyStrip ⟨t.data⟩ = pyStrip t
    rw [strMk_data]
  · have hmapne : ts.map pyStrip ≠ [] := by
      intro e
      exact h0 (List.map_eq_nil_iff.mp e)
    have hmaplen : (ts.map pyStrip).length ≤ 10 := by
      rw [List.length_map]
      exact hlen
    rw [chunkList_single 10 (by decide) _ hmapne hmaplen, List.map_cons,
      List.map_nil]

/-- Claim C10, witness at the token list `["12", "", "34"]` (value
`12,,34`): the empty token survives extraction and appears verbatim in
the single batch's include filter. -/
theorem C10_witness :
    extract_favorite_ids
        ("https://us.wordcamp.org/2025/schedule" ++ "?fav-sessions=" ++
          ⟨joinL [','] (["12", "", "34"].map String.data)⟩)
      = ["12", "", "34"] ∧
    (chunkList 10 ["12", "", "34"]).map (fun chunk => pyJoin "," chunk)
      = ["12,,34"] := by
  have h := C10_empty_tokens_kept ["12", "", "34"] (by decide) (by decide)
    (by decide) (by decide)
  exact ⟨h.1.trans (by decide), by decide⟩

end WCF
